import Mathlib

/-!
Shallow embedding of the synchronization core of a real-time collaborative
drawing canvas: the per-room operation log (server/drawing-state.ts), the
room registry (server/rooms.ts), and the socket event handlers of the
websocket server, together with proofs of the specified properties.

Conventions of the embedding:
* TypeScript arrays become Lean lists; `push` is `++ [x]`, `pop` removes the
  last element.
* JavaScript `Map` becomes an association list with `mapGet` / `mapSet` /
  `mapDelete` mirroring `get` / `set` / `delete`.
* `uuidv4()` is an external source of identifiers; each call site takes the
  generated string as an explicit argument (`genId`).
* Numbers that the code only stores and compares (coordinates, widths,
  timestamps) are embedded as `Int` / `Nat`.
* Methods that mutate `this` and return a value become functions returning a
  pair of the value and the new state.
-/

namespace Canvas

/-- shared/types.ts: `Point { x, y }`. -/
structure Point where
  x : Int
  y : Int
deriving DecidableEq, Repr

/-- shared/types.ts: the `type` field of a `DrawingOperation`. -/
inductive OpType where
  | draw
  | erase
  | clearOp
deriving DecidableEq, Repr

/-- shared/types.ts: `DrawingOperation`. -/
structure DrawingOperation where
  id : String
  userId : String
  type : OpType
  color : Option String
  strokeWidth : Option Nat
  points : List Point
  timestamp : Nat
  sequenceNumber : Nat
deriving DecidableEq, Repr

/-- The argument of `addOperation`:
`Omit<DrawingOperation, 'id' | 'sequenceNumber'> & { id?: string }`. -/
structure DraftOperation where
  id : Option String
  userId : String
  type : OpType
  color : Option String
  strokeWidth : Option Nat
  points : List Point
  timestamp : Nat
deriving DecidableEq, Repr

/-- shared/types.ts: `User`. -/
structure User where
  id : String
  name : String
  color : String
  cursorPosition : Option Point
  isActive : Bool
deriving DecidableEq, Repr

/-- Association-list reading of JavaScript `Map.get`. -/
def mapGet {β : Type} (k : String) : List (String × β) → Option β
  | [] => none
  | (k', v) :: rest => if k' = k then some v else mapGet k rest

/-- Association-list reading of JavaScript `Map.set` (overwrite or append). -/
def mapSet {β : Type} (k : String) (v : β) : List (String × β) → List (String × β)
  | [] => [(k, v)]
  | (k', v') :: rest => if k' = k then (k, v) :: rest else (k', v') :: mapSet k v rest

/-- Association-list reading of JavaScript `Map.delete`. -/
def mapDelete {β : Type} (k : String) (l : List (String × β)) : List (String × β) :=
  l.filter (fun kv => kv.1 ≠ k)

/-- server/drawing-state.ts: the `DrawingState` class fields. -/
structure DrawingState where
  operations : List DrawingOperation
  users : List (String × User)
  sequenceCounter : Nat
  undoStack : List DrawingOperation
  redoStack : List DrawingOperation
deriving DecidableEq, Repr

/-- A freshly constructed `DrawingState` (all fields at their initializers). -/
def DrawingState.init : DrawingState :=
  { operations := [], users := [], sequenceCounter := 0, undoStack := [], redoStack := [] }

/-- JavaScript `operation.id || uuidv4()`: the empty string is falsy. -/
def effectiveId (id? : Option String) (genId : String) : String :=
  match id? with
  | some i => if i = "" then genId else i
  | none => genId

/-- drawing-state.ts `addOperation`: assign `sequenceCounter++` as the
sequence number, push onto `operations`, clear `redoStack`.  `genId` stands
for the `uuidv4()` result consumed when the draft carries no id. -/
def DrawingState.addOperation (s : DrawingState) (draft : DraftOperation) (genId : String) :
    DrawingOperation × DrawingState :=
  let fullOperation : DrawingOperation :=
    { id := effectiveId draft.id genId
      userId := draft.userId
      type := draft.type
      color := draft.color
      strokeWidth := draft.strokeWidth
      points := draft.points
      timestamp := draft.timestamp
      sequenceNumber := s.sequenceCounter }
  (fullOperation,
    { s with
        operations := s.operations ++ [fullOperation]
        redoStack := []
        sequenceCounter := s.sequenceCounter + 1 })

/-- drawing-state.ts `getOperations` (returns a copy of the array). -/
def DrawingState.getOperations (s : DrawingState) : List DrawingOperation :=
  s.operations

/-- drawing-state.ts `getOperationsSince`. -/
def DrawingState.getOperationsSince (s : DrawingState) (sequenceNumber : Nat) :
    List DrawingOperation :=
  s.operations.filter (fun op => sequenceNumber < op.sequenceNumber)

/-- drawing-state.ts `undo`: pop the last element of `operations` and push it
onto `undoStack`; `null` when `operations` is empty. -/
def DrawingState.undo (s : DrawingState) : Option DrawingOperation × DrawingState :=
  match s.operations.getLast? with
  | none => (none, s)
  | some lastOp =>
      (some lastOp,
        { s with
            operations := s.operations.dropLast
            undoStack := s.undoStack ++ [lastOp] })

/-- drawing-state.ts `redo`: pop the last element of `undoStack` and push it
back onto `operations`; `null` when `undoStack` is empty. -/
def DrawingState.redo (s : DrawingState) : Option DrawingOperation × DrawingState :=
  match s.undoStack.getLast? with
  | none => (none, s)
  | some op =>
      (some op,
        { s with
            operations := s.operations ++ [op]
            undoStack := s.undoStack.dropLast })

/-- `findIndex` + `splice(index, 1)` on a list: remove the first element
satisfying the predicate, returning it and the remaining list. -/
def spliceFirst (p : DrawingOperation → Bool) :
    List DrawingOperation → Option (DrawingOperation × List DrawingOperation)
  | [] => none
  | o :: rest =>
      if p o then some (o, rest)
      else (spliceFirst p rest).map (fun q => (q.1, o :: q.2))

/-- drawing-state.ts `removeOperation`: splice out the first operation with
the given id, pushing it onto `undoStack`; report whether it was found. -/
def DrawingState.removeOperation (s : DrawingState) (operationId : String) :
    Bool × DrawingState :=
  match spliceFirst (fun op => op.id == operationId) s.operations with
  | none => (false, s)
  | some (removed, rest) =>
      (true,
        { s with
            operations := rest
            undoStack := s.undoStack ++ [removed] })

/-- drawing-state.ts `clear`: empty `operations`, `undoStack`, `redoStack`
and reset `sequenceCounter` to zero (users are untouched). -/
def DrawingState.clear (s : DrawingState) : DrawingState :=
  { s with operations := [], undoStack := [], redoStack := [], sequenceCounter := 0 }

/-- drawing-state.ts `addUser`. -/
def DrawingState.addUser (s : DrawingState) (userId name color : String) :
    User × DrawingState :=
  let user : User :=
    { id := userId, name := name, color := color, cursorPosition := none, isActive := true }
  (user, { s with users := mapSet userId user s.users })

/-- drawing-state.ts `removeUser`. -/
def DrawingState.removeUser (s : DrawingState) (userId : String) : Bool × DrawingState :=
  ((mapGet userId s.users).isSome, { s with users := mapDelete userId s.users })

/-- drawing-state.ts `updateUserCursor`. -/
def DrawingState.updateUserCursor (s : DrawingState) (userId : String) (position : Point) :
    DrawingState :=
  match mapGet userId s.users with
  | none => s
  | some user =>
      { s with
          users := mapSet userId
            { user with cursorPosition := some position, isActive := true } s.users }

/-- drawing-state.ts `setUserInactive`. -/
def DrawingState.setUserInactive (s : DrawingState) (userId : String) : DrawingState :=
  match mapGet userId s.users with
  | none => s
  | some user => { s with users := mapSet userId { user with isActive := false } s.users }

/-- drawing-state.ts `getUsers`. -/
def DrawingState.getUsers (s : DrawingState) : List User :=
  s.users.map (fun kv => kv.2)

/-- drawing-state.ts `getUser`. -/
def DrawingState.getUser (s : DrawingState) (userId : String) : Option User :=
  mapGet userId s.users

/-- The record returned by drawing-state.ts `getStateSnapshot`. -/
structure Snapshot where
  operations : List DrawingOperation
  users : List User
  sequenceNumber : Nat
deriving DecidableEq, Repr

/-- drawing-state.ts `getStateSnapshot`. -/
def DrawingState.getStateSnapshot (s : DrawingState) : Snapshot :=
  { operations := s.operations
    users := s.getUsers
    sequenceNumber := s.sequenceCounter }

/-- server/rooms.ts: the `RoomManager` class fields. -/
structure RoomManager where
  rooms : List (String × DrawingState)
  userToRoom : List (String × String)
deriving DecidableEq, Repr

/-- A freshly constructed `RoomManager`. -/
def RoomManager.init : RoomManager :=
  { rooms := [], userToRoom := [] }

/-- rooms.ts `getRoom`: return the existing room or create a fresh one.
The returned `RoomManager` records the possible creation; the returned
`DrawingState` is the room the caller will read or mutate. -/
def RoomManager.getRoom (rm : RoomManager) (roomId : String) :
    DrawingState × RoomManager :=
  match mapGet roomId rm.rooms with
  | some room => (room, rm)
  | none =>
      (DrawingState.init, { rm with rooms := mapSet roomId DrawingState.init rm.rooms })

/-- Writing back a mutated room object: in TypeScript `getRoom` hands out a
mutable reference, so every mutation of that room is a store at its key. -/
def RoomManager.setRoom (rm : RoomManager) (roomId : String) (room : DrawingState) :
    RoomManager :=
  { rm with rooms := mapSet roomId room rm.rooms }

/-- The room a key currently denotes (a never-referenced key denotes a fresh
state, which is exactly what `getRoom` would create and return for it). -/
def RoomManager.roomState (rm : RoomManager) (roomId : String) : DrawingState :=
  (mapGet roomId rm.rooms).getD DrawingState.init

/-- rooms.ts `joinRoom`: `getRoom`, record `userId -> roomId`, then
`room.addUser` (a mutation of the stored room). -/
def RoomManager.joinRoom (rm : RoomManager) (userId roomId userName userColor : String) :
    User × RoomManager :=
  let p := rm.getRoom roomId
  let rm2 : RoomManager := { p.2 with userToRoom := mapSet userId roomId p.2.userToRoom }
  let q := p.1.addUser userId userName userColor
  (q.1, rm2.setRoom roomId q.2)

/-- rooms.ts `leaveRoom`: look up the user's room; if the key is truthy,
remove the user from that room and delete the mapping; otherwise no-op. -/
def RoomManager.leaveRoom (rm : RoomManager) (userId : String) : RoomManager :=
  match mapGet userId rm.userToRoom with
  | none => rm
  | some roomId =>
      if roomId = "" then rm
      else
        let p := rm.getRoom roomId
        let q := p.1.removeUser userId
        let rm2 := p.2.setRoom roomId q.2
        { rm2 with userToRoom := mapDelete userId rm2.userToRoom }

/-- rooms.ts `getUserRoom`. -/
def RoomManager.getUserRoom (rm : RoomManager) (userId : String) : Option String :=
  mapGet userId rm.userToRoom

/-- rooms.ts `getAllRooms`. -/
def RoomManager.getAllRooms (rm : RoomManager) : List String :=
  rm.rooms.map (fun kv => kv.1)

/-- The room key every connection starts in (websocket server:
`let currentRoomId = 'default'`). -/
def defaultRoom : String := "default"

/-- The per-connection state of the websocket server's connection handler:
`currentRoomId`, `currentUserId`, and the color drawn at connect time. -/
structure Session where
  currentRoomId : String
  currentUserId : String
  userColor : String
deriving DecidableEq, Repr

/-- Connection setup: `currentRoomId = 'default'`, `currentUserId = socket.id`. -/
def Session.connect (socketId userColor : String) : Session :=
  { currentRoomId := defaultRoom, currentUserId := socketId, userColor := userColor }

/-- The events the handlers emit to other members of the room (payloads
restricted to the fields the handlers actually send). -/
inductive OutEvent where
  | drawStartEvt (op : DrawingOperation) (userColor : Option String)
  | drawMoveEvt (operationId : String) (point : Point)
  | drawEndEvt (operationId : String)
  | eraseStartEvt (op : DrawingOperation) (userColor : Option String)
  | eraseMoveEvt (operationId : String) (point : Point)
  | eraseEndEvt (operationId : String)
  | undoEvt (operationId : String) (userId : String)
  | redoEvt (op : DrawingOperation)
  | clearCanvasEvt
deriving DecidableEq, Repr

/-- Append a point to the first operation with the given id (the in-place
`operation.points.push(data.point)` on the object `find` located). -/
def pushPointFirst (operationId : String) (point : Point) :
    List DrawingOperation → List DrawingOperation
  | [] => []
  | o :: rest =>
      if o.id == operationId then { o with points := o.points ++ [point] } :: rest
      else o :: pushPointFirst operationId point rest

/-- Handler of `draw-start`: build the draft from the payload and the
session, `addOperation` on the current room, broadcast the full operation. -/
def onDrawStart (rm : RoomManager) (sess : Session) (point : Point) (color : String)
    (strokeWidth : Nat) (operationId : Option String) (genId : String) (now : Nat) :
    RoomManager × List OutEvent :=
  let p := rm.getRoom sess.currentRoomId
  let q := p.1.addOperation
    { id := operationId
      userId := sess.currentUserId
      type := OpType.draw
      color := some color
      strokeWidth := some strokeWidth
      points := [point]
      timestamp := now } genId
  (p.2.setRoom sess.currentRoomId q.2,
    [OutEvent.drawStartEvt q.1 ((q.2.getUser sess.currentUserId).map (fun u => u.color))])

/-- Handler of `draw-move`: find the operation in the current room's list;
only when it exists and its `userId` equals the session's user, push the
point and broadcast; otherwise do nothing. -/
def onDrawMove (rm : RoomManager) (sess : Session) (point : Point) (operationId : String) :
    RoomManager × List OutEvent :=
  let p := rm.getRoom sess.currentRoomId
  match p.1.getOperations.find? (fun op => op.id == operationId) with
  | none => (p.2, [])
  | some operation =>
      if operation.userId = sess.currentUserId then
        (p.2.setRoom sess.currentRoomId
          { p.1 with operations := pushPointFirst operationId point p.1.operations },
          [OutEvent.drawMoveEvt operationId point])
      else (p.2, [])

/-- Handler of `draw-end`: validate existence and ownership, broadcast only. -/
def onDrawEnd (rm : RoomManager) (sess : Session) (operationId : String) :
    RoomManager × List OutEvent :=
  let p := rm.getRoom sess.currentRoomId
  match p.1.getOperations.find? (fun op => op.id == operationId) with
  | none => (p.2, [])
  | some operation =>
      if operation.userId = sess.currentUserId then
        (p.2, [OutEvent.drawEndEvt operationId])
      else (p.2, [])

/-- Handler of `erase-start`: like `draw-start` with `type = 'erase'` and no
color in the payload. -/
def onEraseStart (rm : RoomManager) (sess : Session) (point : Point)
    (strokeWidth : Nat) (operationId : Option String) (genId : String) (now : Nat) :
    RoomManager × List OutEvent :=
  let p := rm.getRoom sess.currentRoomId
  let q := p.1.addOperation
    { id := operationId
      userId := sess.currentUserId
      type := OpType.erase
      color := none
      strokeWidth := some strokeWidth
      points := [point]
      timestamp := now } genId
  (p.2.setRoom sess.currentRoomId q.2,
    [OutEvent.eraseStartEvt q.1 ((q.2.getUser sess.currentUserId).map (fun u => u.color))])

/-- Handler of `erase-move`: structurally identical to `draw-move`. -/
def onEraseMove (rm : RoomManager) (sess : Session) (point : Point) (operationId : String) :
    RoomManager × List OutEvent :=
  let p := rm.getRoom sess.currentRoomId
  match p.1.getOperations.find? (fun op => op.id == operationId) with
  | none => (p.2, [])
  | some operation =>
      if operation.userId = sess.currentUserId then
        (p.2.setRoom sess.currentRoomId
          { p.1 with operations := pushPointFirst operationId point p.1.operations },
          [OutEvent.eraseMoveEvt operationId point])
      else (p.2, [])

/-- Handler of `erase-end`: structurally identical to `draw-end`. -/
def onEraseEnd (rm : RoomManager) (sess : Session) (operationId : String) :
    RoomManager × List OutEvent :=
  let p := rm.getRoom sess.currentRoomId
  match p.1.getOperations.find? (fun op => op.id == operationId) with
  | none => (p.2, [])
  | some operation =>
      if operation.userId = sess.currentUserId then
        (p.2, [OutEvent.eraseEndEvt operationId])
      else (p.2, [])

/-- Handler of `undo`: `room.undo()`, broadcast id and author when present. -/
def onUndo (rm : RoomManager) (sess : Session) : RoomManager × List OutEvent :=
  let p := rm.getRoom sess.currentRoomId
  let q := p.1.undo
  (p.2.setRoom sess.currentRoomId q.2,
    match q.1 with
    | none => []
    | some op => [OutEvent.undoEvt op.id op.userId])

/-- Handler of `redo`: `room.redo()`, broadcast the operation when present. -/
def onRedo (rm : RoomManager) (sess : Session) : RoomManager × List OutEvent :=
  let p := rm.getRoom sess.currentRoomId
  let q := p.1.redo
  (p.2.setRoom sess.currentRoomId q.2,
    match q.1 with
    | none => []
    | some op => [OutEvent.redoEvt op])

/-- Handler of `clear-canvas`: `room.clear()`, broadcast to everyone. -/
def onClearCanvas (rm : RoomManager) (sess : Session) : RoomManager × List OutEvent :=
  let p := rm.getRoom sess.currentRoomId
  (p.2.setRoom sess.currentRoomId p.1.clear, [OutEvent.clearCanvasEvt])

/-- Handler of `join-room`: set `currentRoomId` (falsy payload falls back to
the default room), `getRoom`, then `joinRoom`; the snapshot and user-list
sends are reads and do not change the state. -/
def onJoinRoom (rm : RoomManager) (sess : Session) (roomId? : Option String)
    (userName : String) : RoomManager × Session :=
  let newRoomId :=
    match roomId? with
    | some r => if r = "" then defaultRoom else r
    | none => defaultRoom
  let sess' := { sess with currentRoomId := newRoomId }
  let p := rm.getRoom newRoomId
  let q := p.2.joinRoom sess.currentUserId newRoomId userName sess.userColor
  (q.2, sess')

/-- The operation-log calls reachable through the handlers, as one action
type; `add` carries the `uuidv4()` result its call site would consume. -/
inductive LAct where
  | add (draft : DraftOperation) (genId : String)
  | undoA
  | redoA
  | removeA (operationId : String)
  | clearA
deriving DecidableEq, Repr

/-- One log action applied to a `DrawingState` (return values discarded). -/
def DrawingState.lstep (s : DrawingState) : LAct → DrawingState
  | LAct.add d g => (s.addOperation d g).2
  | LAct.undoA => s.undo.2
  | LAct.redoA => s.redo.2
  | LAct.removeA i => (s.removeOperation i).2
  | LAct.clearA => s.clear

/-- A sequence of log actions run on a `DrawingState`. -/
def DrawingState.runLog (s : DrawingState) (tr : List LAct) : DrawingState :=
  tr.foldl DrawingState.lstep s

/-- Registry-level actions: a log action routed to a room key, a join, or a
leave — the full mutation surface of the registry. -/
inductive RAct where
  | logAct (roomId : String) (a : LAct)
  | joinAct (userId roomId userName userColor : String)
  | leaveAct (userId : String)
deriving DecidableEq, Repr

/-- One registry action: log actions go through `getRoom` and store the
mutated room back, exactly as the handlers do. -/
def RoomManager.rstep (rm : RoomManager) : RAct → RoomManager
  | RAct.logAct k a =>
      let p := rm.getRoom k
      p.2.setRoom k (p.1.lstep a)
  | RAct.joinAct u k n c => (rm.joinRoom u k n c).2
  | RAct.leaveAct u => rm.leaveRoom u

/-- A sequence of registry actions run on a `RoomManager`. -/
def RoomManager.runTrace (rm : RoomManager) (tr : List RAct) : RoomManager :=
  tr.foldl RoomManager.rstep rm

/-- The log actions of a trace that target the given room key. -/
def projRoom (roomId : String) (tr : List RAct) : List LAct :=
  tr.filterMap (fun a =>
    match a with
    | RAct.logAct k la => if k = roomId then some la else none
    | _ => none)

/-! ### Association-list lemmas -/

theorem mapGet_set_self {β : Type} (k : String) (v : β) (l : List (String × β)) :
    mapGet k (mapSet k v l) = some v := by
  induction l with
  | nil => simp [mapGet, mapSet]
  | cons kv rest ih =>
      by_cases h : kv.1 = k
      · simp [mapGet, mapSet, h]
      · simpa [mapGet, mapSet, h] using ih

theorem mapGet_set_ne {β : Type} (k k' : String) (v : β) (l : List (String × β))
    (h : k ≠ k') : mapGet k' (mapSet k v l) = mapGet k' l := by
  induction l with
  | nil => simp [mapGet, mapSet, h]
  | cons kv rest ih =>
      by_cases hk : kv.1 = k
      · subst hk
        simp [mapGet, mapSet, h, Ne.symm h]
      · by_cases hk' : kv.1 = k'
        · simp [mapGet, mapSet, hk, hk', Ne.symm h]
        · simpa [mapGet, mapSet, hk, hk'] using ih

theorem mapDelete_cons {β : Type} (k : String) (kv : String × β) (l : List (String × β)) :
    mapDelete k (kv :: l) =
      if kv.1 = k then mapDelete k l else kv :: mapDelete k l := by
  by_cases h : kv.1 = k <;> simp [mapDelete, List.filter_cons, h]

theorem mapGet_delete_self {β : Type} (k : String) (l : List (String × β)) :
    mapGet k (mapDelete k l) = none := by
  induction l with
  | nil => simp [mapGet, mapDelete]
  | cons kv rest ih =>
      rw [mapDelete_cons]
      by_cases h : kv.1 = k
      · simpa [h] using ih
      · simpa [mapGet, h] using ih

theorem mapGet_delete_ne {β : Type} (k k' : String) (l : List (String × β))
    (h : k ≠ k') : mapGet k' (mapDelete k l) = mapGet k' l := by
  induction l with
  | nil => simp [mapGet, mapDelete]
  | cons kv rest ih =>
      rw [mapDelete_cons]
      by_cases hk : kv.1 = k
      · have hk' : kv.1 ≠ k' := by
          rw [hk]; exact h
        simpa [mapGet, hk, hk', h] using ih
      · by_cases hk' : kv.1 = k'
        · simp [mapGet, hk, hk', Ne.symm h]
        · simpa [mapGet, hk, hk'] using ih

/-! ### Registry state lemmas -/

theorem getRoom_fst (rm : RoomManager) (k : String) :
    (rm.getRoom k).1 = rm.roomState k := by
  unfold RoomManager.getRoom RoomManager.roomState
  cases h : mapGet k rm.rooms <;> simp [h]

theorem getRoom_roomState (rm : RoomManager) (k k' : String) :
    ((rm.getRoom k).2).roomState k' = rm.roomState k' := by
  unfold RoomManager.getRoom RoomManager.roomState
  cases h : mapGet k rm.rooms with
  | some room => simp [h]
  | none =>
      by_cases hk : k = k'
      · subst hk
        simp [mapGet_set_self, h]
      · simp [mapGet_set_ne k k' _ _ hk]

theorem getRoom_userToRoom (rm : RoomManager) (k : String) :
    ((rm.getRoom k).2).userToRoom = rm.userToRoom := by
  unfold RoomManager.getRoom
  cases h : mapGet k rm.rooms <;> simp [h]

theorem setRoom_roomState_self (rm : RoomManager) (k : String) (r : DrawingState) :
    (rm.setRoom k r).roomState k = r := by
  simp [RoomManager.setRoom, RoomManager.roomState, mapGet_set_self]

theorem setRoom_roomState_ne (rm : RoomManager) (k k' : String) (r : DrawingState)
    (h : k ≠ k') : (rm.setRoom k r).roomState k' = rm.roomState k' := by
  simp [RoomManager.setRoom, RoomManager.roomState, mapGet_set_ne k k' _ _ h]

theorem setRoom_userToRoom (rm : RoomManager) (k : String) (r : DrawingState) :
    (rm.setRoom k r).userToRoom = rm.userToRoom := rfl

/-! ### Splice lemmas -/

theorem spliceFirst_decomp (p : DrawingOperation → Bool) :
    ∀ {l : List DrawingOperation} {o : DrawingOperation} {rest : List DrawingOperation},
      spliceFirst p l = some (o, rest) →
      ∃ l1 l2, l = l1 ++ o :: l2 ∧ rest = l1 ++ l2 := by
  intro l
  induction l with
  | nil => intro o rest h; simp [spliceFirst] at h
  | cons x xs ih =>
      intro o rest h
      by_cases hx : p x
      · rw [spliceFirst, if_pos hx] at h
        simp only [Option.some.injEq, Prod.mk.injEq] at h
        obtain ⟨ho, hrest⟩ := h
        subst ho; subst hrest
        exact ⟨[], xs, rfl, rfl⟩
      · rw [spliceFirst, if_neg hx] at h
        rw [Option.map_eq_some'] at h
        obtain ⟨⟨r, l'⟩, hs, hq⟩ := h
        simp only [Prod.mk.injEq] at hq
        obtain ⟨ho, hrest⟩ := hq
        subst ho
        obtain ⟨l1, l2, hxs, hl⟩ := ih hs
        refine ⟨x :: l1, l2, ?_, ?_⟩
        · rw [hxs]; rfl
        · rw [← hrest, hl]; rfl

theorem spliceFirst_perm (p : DrawingOperation → Bool) (l : List DrawingOperation)
    (o : DrawingOperation) (rest : List DrawingOperation)
    (h : spliceFirst p l = some (o, rest)) : List.Perm l (o :: rest) := by
  obtain ⟨l1, l2, hl, hrest⟩ := spliceFirst_decomp p h
  rw [hl, hrest]
  exact List.perm_middle

/-! ### Concrete inputs used by counterexamples and witnesses -/

def sA : String := "a"
def sB : String := "b"
def sX : String := "x"
def sU : String := "u"
def sV : String := "v"
def g1 : String := "g1"
def g2 : String := "g2"
def g3 : String := "g3"
def black : String := "#000000"

def draftS1 : DraftOperation :=
  { id := some sA, userId := sU, type := OpType.draw, color := some black,
    strokeWidth := some 5, points := [{ x := 0, y := 0 }], timestamp := 0 }

def draftS2 : DraftOperation :=
  { id := some sB, userId := sU, type := OpType.draw, color := some black,
    strokeWidth := some 5, points := [{ x := 1, y := 1 }], timestamp := 1 }

def draftX : DraftOperation :=
  { id := some sX, userId := sU, type := OpType.draw, color := some black,
    strokeWidth := some 5, points := [{ x := 0, y := 0 }], timestamp := 0 }

/-! ### C1 -/

/-- C1: the claim says `redo()` immediately after an `append()` returns none,
because `append` is supposed to clear the pending redo history.  On the code
this fails: `addOperation` clears the never-read `redoStack` field, while
`redo()` pops from `undoStack`, which survives the append.  Concretely:
append S1, undo it, append S2, and `redo()` returns the undone S1 instead of
none. -/
theorem C1_redo_after_append_returns_undone_op :
    (((((DrawingState.init.addOperation draftS1 g1).2).undo.2).addOperation
        draftS2 g2).2).redo.1
      = some (DrawingState.init.addOperation draftS1 g1).1 := by
  decide

/-! ### C3 -/

/-- C3: on every log with a non-empty active list, `undo()` followed
immediately by `redo()` restores `listActive()` (here `getOperations`) to
exactly its prior value — same operations, ids, sequence numbers, points,
and order. -/
theorem C3_undo_redo_roundtrip (s : DrawingState) (h : s.getOperations ≠ []) :
    ((s.undo.2).redo.2).getOperations = s.getOperations := by
  cases hl : s.operations.getLast? with
  | none => exact absurd (List.getLast?_eq_none_iff.mp hl) h
  | some a =>
      simp only [DrawingState.getOperations, DrawingState.undo, hl, DrawingState.redo,
        List.getLast?_concat, List.dropLast_concat]
      exact List.dropLast_append_getLast? a hl

def c3s : DrawingState := (DrawingState.init.addOperation draftS1 g1).2

/-- Witness for C3 at a concrete one-operation log. -/
theorem C3_undo_redo_roundtrip_witness :
    c3s.getOperations ≠ [] ∧ ((c3s.undo.2).redo.2).getOperations = c3s.getOperations :=
  ⟨by decide, C3_undo_redo_roundtrip c3s (by decide)⟩

/-! ### C4 -/

/-- C4: on every log whose active list ends with `x`, `undo()` removes and
returns exactly that last-appended element — independently of the ids or
authors of the operations — and pushes it onto the undo stack. -/
theorem C4_undo_pops_last (s : DrawingState) (l : List DrawingOperation)
    (x : DrawingOperation) (h : s.operations = l ++ [x]) :
    s.undo.1 = some x ∧ (s.undo.2).operations = l
      ∧ (s.undo.2).undoStack = s.undoStack ++ [x] := by
  simp [DrawingState.undo, h, List.getLast?_concat, List.dropLast_concat]

def c4s1 : DrawingState := (DrawingState.init.addOperation draftS1 g1).2
def c4opS2 : DrawingOperation := (c4s1.addOperation draftS2 g2).1
def c4s2 : DrawingState := (c4s1.addOperation draftS2 g2).2

/-- Witness for C4: after appending S1 (id a) then S2 (id b) to an empty
log, `undo()` returns S2 — whose id is b, not a. -/
theorem C4_undo_pops_last_witness :
    c4s2.operations = c4s1.operations ++ [c4opS2]
      ∧ c4s2.undo.1 = some c4opS2 ∧ c4opS2.id = sB :=
  ⟨by decide, (C4_undo_pops_last c4s2 c4s1.operations c4opS2 (by decide)).1, by decide⟩

/-! ### C6 -/

/-- C6: `reset()` (source name `clear`) empties `active`, the undo stack and
the redo stack and zeroes the counter, the snapshot then shows an empty
operation list with sequence number 0, and the next `append` assigns
sequence 0 again. -/
theorem C6_reset_zeroes_everything (s : DrawingState) (d : DraftOperation) (g : String) :
    (s.clear).operations = [] ∧ (s.clear).undoStack = [] ∧ (s.clear).redoStack = []
      ∧ (s.clear).sequenceCounter = 0
      ∧ (s.clear).getStateSnapshot.operations = []
      ∧ (s.clear).getStateSnapshot.sequenceNumber = 0
      ∧ ((s.clear).addOperation d g).1.sequenceNumber = 0 := by
  simp [DrawingState.clear, DrawingState.getStateSnapshot, DrawingState.addOperation]

/-! ### C2: log invariants

The operations alive in a log are those in `active` plus those parked on the
undo stack; every mutation either moves operations between the two lists or
appends/clears, so the multiset of live operations evolves in a disciplined
way that the following lemmas capture. -/

/-- All operations currently owned by the log. -/
def liveOps (s : DrawingState) : List DrawingOperation :=
  s.operations ++ s.undoStack

/-- The ids currently in use in the log. -/
def DrawingState.liveIds (s : DrawingState) : List String :=
  (liveOps s).map (fun op => op.id)

/-- One action is id-fresh at a state when, if it is an `add`, its effective
id is not alive there. -/
def actFresh (s : DrawingState) : LAct → Bool
  | LAct.add d g => !(s.liveIds.contains (effectiveId d.id g))
  | _ => true

/-- A trace is id-fresh from a state when each `add` step's effective id is
not alive at the moment it is appended. -/
def freshFrom (s : DrawingState) : List LAct → Bool
  | [] => true
  | a :: rest => actFresh s a && freshFrom (s.lstep a) rest

/-- Every live sequence number is below the counter. -/
def SeqBound (s : DrawingState) : Prop :=
  ∀ op ∈ liveOps s, op.sequenceNumber < s.sequenceCounter

/-- Live sequence numbers are pairwise distinct. -/
def SeqDistinct (s : DrawingState) : Prop :=
  (liveOps s).Pairwise (fun a b => a.sequenceNumber ≠ b.sequenceNumber)

/-- Live ids are pairwise distinct. -/
def IdDistinct (s : DrawingState) : Prop :=
  (liveOps s).Pairwise (fun a b => a.id ≠ b.id)

/-- The active list is strictly ascending in sequence number. -/
def OpsSorted (s : DrawingState) : Prop :=
  s.operations.Pairwise (fun a b => a.sequenceNumber < b.sequenceNumber)

theorem addOperation_operations (s : DrawingState) (d : DraftOperation) (g : String) :
    ((s.addOperation d g).2).operations = s.operations ++ [(s.addOperation d g).1] := rfl

theorem addOperation_undoStack (s : DrawingState) (d : DraftOperation) (g : String) :
    ((s.addOperation d g).2).undoStack = s.undoStack := rfl

theorem addOperation_counter (s : DrawingState) (d : DraftOperation) (g : String) :
    ((s.addOperation d g).2).sequenceCounter = s.sequenceCounter + 1 := rfl

theorem addOperation_seq (s : DrawingState) (d : DraftOperation) (g : String) :
    (s.addOperation d g).1.sequenceNumber = s.sequenceCounter := rfl

theorem addOperation_id (s : DrawingState) (d : DraftOperation) (g : String) :
    (s.addOperation d g).1.id = effectiveId d.id g := rfl

theorem undo_counter (s : DrawingState) :
    (s.undo.2).sequenceCounter = s.sequenceCounter := by
  cases hl : s.operations.getLast? <;> simp [DrawingState.undo, hl]

theorem redo_counter (s : DrawingState) :
    (s.redo.2).sequenceCounter = s.sequenceCounter := by
  cases hl : s.undoStack.getLast? <;> simp [DrawingState.redo, hl]

theorem remove_counter (s : DrawingState) (i : String) :
    ((s.removeOperation i).2).sequenceCounter = s.sequenceCounter := by
  cases hs : spliceFirst (fun op => op.id == i) s.operations with
  | none => simp [DrawingState.removeOperation, hs]
  | some pr => simp [DrawingState.removeOperation, hs]

theorem liveOps_add_perm (s : DrawingState) (d : DraftOperation) (g : String) :
    List.Perm (liveOps (s.addOperation d g).2)
      (liveOps s ++ [(s.addOperation d g).1]) := by
  show List.Perm ((s.operations ++ [(s.addOperation d g).1]) ++ s.undoStack)
    ((s.operations ++ s.undoStack) ++ [(s.addOperation d g).1])
  rw [List.append_assoc, List.append_assoc]
  exact List.perm_append_comm.append_left s.operations

theorem liveOps_undo_perm (s : DrawingState) :
    List.Perm (liveOps s.undo.2) (liveOps s) := by
  cases hl : s.operations.getLast? with
  | none => simp [liveOps, DrawingState.undo, hl]
  | some a =>
      have h4 : s.operations.dropLast ++ [a] = s.operations :=
        List.dropLast_append_getLast? a hl
      simp only [liveOps, DrawingState.undo, hl]
      have h2 : List.Perm (s.operations.dropLast ++ (s.undoStack ++ [a]))
          (s.operations.dropLast ++ ([a] ++ s.undoStack)) :=
        List.perm_append_comm.append_left _
      have h5 : s.operations.dropLast ++ ([a] ++ s.undoStack)
          = s.operations ++ s.undoStack := by
        rw [← List.append_assoc, h4]
      rw [← h5]
      exact h2

theorem liveOps_redo_perm (s : DrawingState) :
    List.Perm (liveOps s.redo.2) (liveOps s) := by
  cases hl : s.undoStack.getLast? with
  | none => simp [liveOps, DrawingState.redo, hl]
  | some a =>
      have h4 : s.undoStack.dropLast ++ [a] = s.undoStack :=
        List.dropLast_append_getLast? a hl
      simp only [liveOps, DrawingState.redo, hl]
      rw [List.append_assoc]
      have h2 : List.Perm ([a] ++ s.undoStack.dropLast) s.undoStack := by
        have h2a : List.Perm ([a] ++ s.undoStack.dropLast)
            (s.undoStack.dropLast ++ [a]) := List.perm_append_comm
        rw [h4] at h2a
        exact h2a
      exact h2.append_left s.operations

theorem liveOps_remove_perm (s : DrawingState) (i : String) :
    List.Perm (liveOps (s.removeOperation i).2) (liveOps s) := by
  cases hs : spliceFirst (fun op => op.id == i) s.operations with
  | none => simp [liveOps, DrawingState.removeOperation, hs]
  | some pr =>
      obtain ⟨o, rest⟩ := pr
      have hperm : List.Perm s.operations (o :: rest) :=
        spliceFirst_perm _ _ _ _ hs
      simp only [liveOps, DrawingState.removeOperation, hs]
      have p1 : List.Perm (rest ++ (s.undoStack ++ [o]))
          (rest ++ ([o] ++ s.undoStack)) :=
        List.perm_append_comm.append_left rest
      have p2 : rest ++ ([o] ++ s.undoStack) = (rest ++ [o]) ++ s.undoStack :=
        (List.append_assoc rest [o] s.undoStack).symm
      have p3 : List.Perm ((rest ++ [o]) ++ s.undoStack) ((o :: rest) ++ s.undoStack) :=
        List.Perm.append_right s.undoStack List.perm_append_comm
      have p4 : List.Perm ((o :: rest) ++ s.undoStack) (s.operations ++ s.undoStack) :=
        List.Perm.append_right s.undoStack hperm.symm
      exact p1.trans ((p2 ▸ p3).trans p4)

theorem seqBound_lstep (s : DrawingState) (a : LAct) (h : SeqBound s) :
    SeqBound (s.lstep a) := by
  cases a with
  | add d g =>
      intro op hop
      have hop' := (liveOps_add_perm s d g).mem_iff.mp hop
      show op.sequenceNumber < ((s.addOperation d g).2).sequenceCounter
      rw [addOperation_counter]
      rcases List.mem_append.mp hop' with h1 | h1
      · exact Nat.lt_succ_of_lt (h op h1)
      · have he : op = (s.addOperation d g).1 := by simpa using h1
        rw [he, addOperation_seq]
        exact Nat.lt_succ_self _
  | undoA =>
      intro op hop
      show op.sequenceNumber < (s.undo.2).sequenceCounter
      rw [undo_counter]
      exact h op ((liveOps_undo_perm s).mem_iff.mp hop)
  | redoA =>
      intro op hop
      show op.sequenceNumber < (s.redo.2).sequenceCounter
      rw [redo_counter]
      exact h op ((liveOps_redo_perm s).mem_iff.mp hop)
  | removeA i =>
      intro op hop
      show op.sequenceNumber < ((s.removeOperation i).2).sequenceCounter
      rw [remove_counter]
      exact h op ((liveOps_remove_perm s i).mem_iff.mp hop)
  | clearA =>
      intro op hop
      simp [DrawingState.lstep, DrawingState.clear, liveOps] at hop

theorem seqDistinct_lstep (s : DrawingState) (a : LAct) (hb : SeqBound s)
    (h : SeqDistinct s) : SeqDistinct (s.lstep a) := by
  have S : ∀ {x y : DrawingOperation},
      x.sequenceNumber ≠ y.sequenceNumber → y.sequenceNumber ≠ x.sequenceNumber :=
    fun hxy e => hxy e.symm
  cases a with
  | add d g =>
      refine ((liveOps_add_perm s d g).pairwise_iff S).mpr ?_
      refine List.pairwise_append.mpr ⟨h, List.pairwise_singleton _ _, ?_⟩
      intro x hx y hy
      have hy' : y = (s.addOperation d g).1 := by simpa using hy
      rw [hy', addOperation_seq]
      exact Nat.ne_of_lt (hb x hx)
  | undoA => exact ((liveOps_undo_perm s).pairwise_iff S).mpr h
  | redoA => exact ((liveOps_redo_perm s).pairwise_iff S).mpr h
  | removeA i => exact ((liveOps_remove_perm s i).pairwise_iff S).mpr h
  | clearA => simp [DrawingState.lstep, DrawingState.clear, SeqDistinct, liveOps]

theorem idDistinct_lstep (s : DrawingState) (a : LAct) (h : IdDistinct s)
    (hfresh : ∀ d g, a = LAct.add d g →
      effectiveId d.id g ∉ (liveOps s).map (fun op => op.id)) :
    IdDistinct (s.lstep a) := by
  have S : ∀ {x y : DrawingOperation}, x.id ≠ y.id → y.id ≠ x.id :=
    fun hxy e => hxy e.symm
  cases a with
  | add d g =>
      refine ((liveOps_add_perm s d g).pairwise_iff S).mpr ?_
      refine List.pairwise_append.mpr ⟨h, List.pairwise_singleton _ _, ?_⟩
      intro x hx y hy
      have hy' : y = (s.addOperation d g).1 := by simpa using hy
      rw [hy', addOperation_id]
      intro e
      exact hfresh d g rfl (e ▸ List.mem_map_of_mem (fun op => op.id) hx)
  | undoA => exact ((liveOps_undo_perm s).pairwise_iff S).mpr h
  | redoA => exact ((liveOps_redo_perm s).pairwise_iff S).mpr h
  | removeA i => exact ((liveOps_remove_perm s i).pairwise_iff S).mpr h
  | clearA => simp [DrawingState.lstep, DrawingState.clear, IdDistinct, liveOps]

theorem opsSorted_lstep (s : DrawingState) (a : LAct) (ha : a ≠ LAct.redoA)
    (hb : SeqBound s) (h : OpsSorted s) : OpsSorted (s.lstep a) := by
  cases a with
  | add d g =>
      show OpsSorted (s.addOperation d g).2
      unfold OpsSorted
      rw [addOperation_operations]
      refine List.pairwise_append.mpr ⟨h, List.pairwise_singleton _ _, ?_⟩
      intro x hx y hy
      have hy' : y = (s.addOperation d g).1 := by simpa using hy
      rw [hy', addOperation_seq]
      exact hb x (List.mem_append_left s.undoStack hx)
  | undoA =>
      show OpsSorted s.undo.2
      unfold OpsSorted
      cases hl : s.operations.getLast? with
      | none => simpa [DrawingState.undo, hl] using h
      | some x =>
          simp only [DrawingState.undo, hl]
          exact h.sublist (List.dropLast_sublist s.operations)
  | redoA => exact absurd rfl ha
  | removeA i =>
      show OpsSorted (s.removeOperation i).2
      unfold OpsSorted
      cases hs : spliceFirst (fun op => op.id == i) s.operations with
      | none => simpa [DrawingState.removeOperation, hs] using h
      | some pr =>
          obtain ⟨o, rest⟩ := pr
          simp only [DrawingState.removeOperation, hs]
          obtain ⟨l1, l2, hl, hrest⟩ := spliceFirst_decomp _ hs
          rw [hrest]
          have hsub : List.Sublist (l1 ++ l2) (l1 ++ o :: l2) :=
            (List.sublist_cons_self o l2).append_left l1
          have h' : (l1 ++ o :: l2).Pairwise
              (fun a b => a.sequenceNumber < b.sequenceNumber) := by
            rw [← hl]
            exact h
          exact h'.sublist hsub
  | clearA =>
      show OpsSorted s.clear
      simp [OpsSorted, DrawingState.clear]

theorem seqInv_runLog (tr : List LAct) :
    ∀ s : DrawingState, SeqBound s → SeqDistinct s →
      SeqBound (s.runLog tr) ∧ SeqDistinct (s.runLog tr) := by
  induction tr with
  | nil => intro s hb hd; exact ⟨hb, hd⟩
  | cons a rest ih =>
      intro s hb hd
      exact ih (s.lstep a) (seqBound_lstep s a hb) (seqDistinct_lstep s a hb hd)

theorem idInv_runLog (tr : List LAct) :
    ∀ s : DrawingState, freshFrom s tr = true → IdDistinct s →
      IdDistinct (s.runLog tr) := by
  induction tr with
  | nil => intro s _ h; exact h
  | cons a rest ih =>
      intro s hf h
      rw [freshFrom, Bool.and_eq_true] at hf
      obtain ⟨hf1, hf2⟩ := hf
      refine ih (s.lstep a) hf2 (idDistinct_lstep s a h ?_)
      intro d g ha
      subst ha
      simpa [actFresh, DrawingState.liveIds] using hf1

theorem sorted_runLog (tr : List LAct) :
    ∀ s : DrawingState, (∀ a ∈ tr, a ≠ LAct.redoA) → SeqBound s → OpsSorted s →
      OpsSorted (s.runLog tr) := by
  induction tr with
  | nil => intro s _ _ h; exact h
  | cons a rest ih =>
      intro s hnr hb h
      have ha : a ≠ LAct.redoA := hnr a (List.mem_cons_self a rest)
      exact ih (s.lstep a) (fun x hx => hnr x (List.mem_cons_of_mem a hx))
        (seqBound_lstep s a hb) (opsSorted_lstep s a ha hb h)

/-- The trace refuting C2 as stated: append two operations under the same
submitted id x, splice the first one out by id, then redo it — the resulting
active list is `[⟨x, seq 1⟩, ⟨x, seq 0⟩]`. -/
def c2trace : List LAct :=
  [LAct.add draftX g1, LAct.add draftX g2, LAct.removeA sX, LAct.redoA]

/-- C2 counterexample: after `c2trace` the active list is neither strictly
ascending in sequence nor duplicate-free in ids — `append` never checks a
submitter-provided id for uniqueness, and `redo` re-appends an operation
spliced out of the middle behind a higher sequence number. -/
theorem C2_counterexample :
    ¬ (((DrawingState.init.runLog c2trace).getOperations).Pairwise
          (fun a b => a.sequenceNumber < b.sequenceNumber))
      ∧ ¬ (((DrawingState.init.runLog c2trace).getOperations).Pairwise
          (fun a b => a.id ≠ b.id)) := by
  decide

/-- C2 (amended): at every state reachable from a fresh log by append, undo,
redo, removeById, and reset: (1) the active list has pairwise-distinct
sequence numbers; (2) when every append's effective id is fresh among the
ids then alive, the active list has no duplicate ids; (3) when the call
sequence contains no redo, the active list is strictly ascending in
sequence. -/
theorem C2_log_invariants (tr : List LAct) :
    ((DrawingState.init.runLog tr).getOperations).Pairwise
        (fun a b => a.sequenceNumber ≠ b.sequenceNumber)
      ∧ (freshFrom DrawingState.init tr = true →
          ((DrawingState.init.runLog tr).getOperations).Pairwise
            (fun a b => a.id ≠ b.id))
      ∧ ((∀ a ∈ tr, a ≠ LAct.redoA) →
          ((DrawingState.init.runLog tr).getOperations).Pairwise
            (fun a b => a.sequenceNumber < b.sequenceNumber)) := by
  have hb0 : SeqBound DrawingState.init := by
    intro op hop
    simp [liveOps, DrawingState.init] at hop
  have hd0 : SeqDistinct DrawingState.init := List.Pairwise.nil
  have hi0 : IdDistinct DrawingState.init := List.Pairwise.nil
  have hs0 : OpsSorted DrawingState.init := List.Pairwise.nil
  have hsub : List.Sublist ((DrawingState.init.runLog tr).operations)
      (liveOps (DrawingState.init.runLog tr)) :=
    List.sublist_append_left _ _
  refine ⟨?_, ?_, ?_⟩
  · exact ((seqInv_runLog tr DrawingState.init hb0 hd0).2).sublist hsub
  · intro hf
    exact (idInv_runLog tr DrawingState.init hf hi0).sublist hsub
  · intro hnr
    exact sorted_runLog tr DrawingState.init hnr hb0 hs0

/-- A well-behaved trace: fresh ids, no redo. -/
def c2okTrace : List LAct :=
  [LAct.add draftS1 g1, LAct.add draftS2 g2, LAct.undoA, LAct.removeA sA]

/-- Witness for C2 (amended) at a concrete four-step trace. -/
theorem C2_log_invariants_witness :
    freshFrom DrawingState.init c2okTrace = true
      ∧ (∀ a ∈ c2okTrace, a ≠ LAct.redoA)
      ∧ ((DrawingState.init.runLog c2okTrace).getOperations).Pairwise
          (fun a b => a.id ≠ b.id)
      ∧ ((DrawingState.init.runLog c2okTrace).getOperations).Pairwise
          (fun a b => a.sequenceNumber < b.sequenceNumber) :=
  ⟨by decide, by decide,
    (C2_log_invariants c2okTrace).2.1 (by decide),
    (C2_log_invariants c2okTrace).2.2 (by decide)⟩

/-! ### C5 and C7: the move/end handlers -/

/-- C5: the authorId-ownership guard is the same for both tool kinds: when
the target operation exists but its author differs from the sending
session's user, each of `draw-move`, `erase-move`, `draw-end`, `erase-end`
changes no room state (in particular the operation's points) and broadcasts
nothing. -/
theorem C5_ownership_guard (rm : RoomManager) (sess : Session) (pt : Point)
    (i : String) (op : DrawingOperation)
    (hfind : (((rm.getRoom sess.currentRoomId).1).getOperations).find?
        (fun o => o.id == i) = some op)
    (hguard : op.userId ≠ sess.currentUserId) :
    ((onDrawMove rm sess pt i).2 = []
        ∧ ∀ k, ((onDrawMove rm sess pt i).1).roomState k = rm.roomState k)
      ∧ ((onEraseMove rm sess pt i).2 = []
        ∧ ∀ k, ((onEraseMove rm sess pt i).1).roomState k = rm.roomState k)
      ∧ ((onDrawEnd rm sess i).2 = []
        ∧ ∀ k, ((onDrawEnd rm sess i).1).roomState k = rm.roomState k)
      ∧ ((onEraseEnd rm sess i).2 = []
        ∧ ∀ k, ((onEraseEnd rm sess i).1).roomState k = rm.roomState k) := by
  simp only [onDrawMove, onEraseMove, onDrawEnd, onEraseEnd, hfind, if_neg hguard]
  exact ⟨⟨trivial, fun k => getRoom_roomState rm _ k⟩,
    ⟨trivial, fun k => getRoom_roomState rm _ k⟩,
    ⟨trivial, fun k => getRoom_roomState rm _ k⟩,
    ⟨trivial, fun k => getRoom_roomState rm _ k⟩⟩

def c5sessA : Session := Session.connect sU black
def c5sessB : Session := Session.connect sV black
def c5rm : RoomManager :=
  (onDrawStart RoomManager.init c5sessA { x := 0, y := 0 } black 5 (some sA) g1 0).1
def c5op : DrawingOperation :=
  { id := sA, userId := sU, type := OpType.draw, color := some black,
    strokeWidth := some 5, points := [{ x := 0, y := 0 }], timestamp := 0,
    sequenceNumber := 0 }

/-- Witness for C5: user v's session sends a move for user u's in-flight
operation; nothing changes and nothing is broadcast. -/
theorem C5_ownership_guard_witness :
    (((c5rm.getRoom c5sessB.currentRoomId).1).getOperations).find?
        (fun o => o.id == sA) = some c5op
      ∧ c5op.userId ≠ c5sessB.currentUserId
      ∧ (onDrawMove c5rm c5sessB { x := 2, y := 2 } sA).2 = []
      ∧ (onEraseMove c5rm c5sessB { x := 2, y := 2 } sA).2 = []
      ∧ ((onDrawMove c5rm c5sessB { x := 2, y := 2 } sA).1).roomState defaultRoom
          = c5rm.roomState defaultRoom :=
  ⟨by decide, by decide,
    (C5_ownership_guard c5rm c5sessB { x := 2, y := 2 } sA c5op
      (by decide) (by decide)).1.1,
    (C5_ownership_guard c5rm c5sessB { x := 2, y := 2 } sA c5op
      (by decide) (by decide)).2.1.1,
    (C5_ownership_guard c5rm c5sessB { x := 2, y := 2 } sA c5op
      (by decide) (by decide)).1.2 defaultRoom⟩

/-- C7: a move event whose operation id is not in `active` (never created,
undone, or removed) is a silent no-op for both tool kinds: no broadcast, and
every room's state — in particular `listActive()` — is unchanged.  The
embedding is total, so no error is raised. -/
theorem C7_appendPoint_absent_noop (rm : RoomManager) (sess : Session) (pt : Point)
    (i : String)
    (habs : (((rm.getRoom sess.currentRoomId).1).getOperations).find?
        (fun o => o.id == i) = none) :
    ((onDrawMove rm sess pt i).2 = []
        ∧ ∀ k, ((onDrawMove rm sess pt i).1).roomState k = rm.roomState k)
      ∧ ((onEraseMove rm sess pt i).2 = []
        ∧ ∀ k, ((onEraseMove rm sess pt i).1).roomState k = rm.roomState k) := by
  simp only [onDrawMove, onEraseMove, habs]
  exact ⟨⟨trivial, fun k => getRoom_roomState rm _ k⟩,
    ⟨trivial, fun k => getRoom_roomState rm _ k⟩⟩

def c7rm : RoomManager := (onUndo c5rm c5sessA).1

/-- Witness for C7: after user u's operation is undone, a late move for its
id finds nothing and changes nothing. -/
theorem C7_appendPoint_absent_noop_witness :
    (((c7rm.getRoom c5sessA.currentRoomId).1).getOperations).find?
        (fun o => o.id == sA) = none
      ∧ (onDrawMove c7rm c5sessA { x := 2, y := 2 } sA).2 = []
      ∧ ((onDrawMove c7rm c5sessA { x := 2, y := 2 } sA).1).roomState defaultRoom
          = c7rm.roomState defaultRoom :=
  ⟨by decide,
    (C7_appendPoint_absent_noop c7rm c5sessA { x := 2, y := 2 } sA (by decide)).1.1,
    (C7_appendPoint_absent_noop c7rm c5sessA { x := 2, y := 2 } sA (by decide)).1.2
      defaultRoom⟩

/-! ### C10: mutating events before any join target the default room -/

/-- C10: a session starts with current room key `"default"`, so a
`draw-start`, `erase-start`, `undo`, `redo` or `clear-canvas` received
before any join is applied — not rejected — to the room keyed `"default"`,
which is created on first reference. -/
theorem C10_unjoined_events_hit_default_room (rm : RoomManager)
    (sid c col : String) (pt : Point) (w : Nat) (oid : Option String)
    (gen : String) (now : Nat) :
    (Session.connect sid c).currentRoomId = defaultRoom
      ∧ ((onDrawStart rm (Session.connect sid c) pt col w oid gen now).1).roomState
            defaultRoom
          = ((rm.roomState defaultRoom).addOperation
              { id := oid, userId := sid, type := OpType.draw, color := some col,
                strokeWidth := some w, points := [pt], timestamp := now } gen).2
      ∧ ((onEraseStart rm (Session.connect sid c) pt w oid gen now).1).roomState
            defaultRoom
          = ((rm.roomState defaultRoom).addOperation
              { id := oid, userId := sid, type := OpType.erase, color := none,
                strokeWidth := some w, points := [pt], timestamp := now } gen).2
      ∧ ((onUndo rm (Session.connect sid c)).1).roomState defaultRoom
          = ((rm.roomState defaultRoom).undo).2
      ∧ ((onRedo rm (Session.connect sid c)).1).roomState defaultRoom
          = ((rm.roomState defaultRoom).redo).2
      ∧ ((onClearCanvas rm (Session.connect sid c)).1).roomState defaultRoom
          = (rm.roomState defaultRoom).clear
      ∧ (mapGet defaultRoom (((onUndo rm (Session.connect sid c)).1).rooms)).isSome
          = true := by
  refine ⟨rfl, ?_, ?_, ?_, ?_, ?_, ?_⟩
  · simp only [onDrawStart, Session.connect]
    rw [setRoom_roomState_self, getRoom_fst]
  · simp only [onEraseStart, Session.connect]
    rw [setRoom_roomState_self, getRoom_fst]
  · simp only [onUndo, Session.connect]
    rw [setRoom_roomState_self, getRoom_fst]
  · simp only [onRedo, Session.connect]
    rw [setRoom_roomState_self, getRoom_fst]
  · simp only [onClearCanvas, Session.connect]
    rw [setRoom_roomState_self, getRoom_fst]
  · simp only [onUndo, Session.connect, RoomManager.setRoom]
    rw [mapGet_set_self]
    rfl

/-! ### C9: join leaves stale presence records behind -/

theorem roomState_userToRoom_update (rm : RoomManager) (l : List (String × String))
    (k : String) :
    RoomManager.roomState { rm with userToRoom := l } k = rm.roomState k := rfl

/-- The `User` record that `addUser` builds. -/
def freshUser (u n c : String) : User :=
  { id := u, name := n, color := c, cursorPosition := none, isActive := true }

theorem addUser_users (s : DrawingState) (u n c : String) :
    ((s.addUser u n c).2).users = mapSet u (freshUser u n c) s.users := rfl

theorem joinRoom_roomState_ne (rm : RoomManager) (u k n c k' : String) (h : k ≠ k') :
    ((rm.joinRoom u k n c).2).roomState k' = rm.roomState k' := by
  simp only [RoomManager.joinRoom]
  rw [setRoom_roomState_ne _ _ _ _ h, roomState_userToRoom_update]
  exact getRoom_roomState rm k k'

theorem joinRoom_roomState_self (rm : RoomManager) (u k n c : String) :
    ((rm.joinRoom u k n c).2).roomState k = ((rm.roomState k).addUser u n c).2 := by
  simp only [RoomManager.joinRoom]
  rw [setRoom_roomState_self, getRoom_fst]

theorem joinRoom_userToRoom (rm : RoomManager) (u k n c : String) :
    ((rm.joinRoom u k n c).2).userToRoom = mapSet u k rm.userToRoom := by
  simp only [RoomManager.joinRoom, RoomManager.setRoom]
  rw [getRoom_userToRoom]

/-- C9: joining a second room neither removes nor edits the participant's
record in the first room's presence table; the participant-to-room mapping
is simply overwritten, so a later leave removes them from the second room
only and the stale record in the first room persists. -/
theorem C9_join_then_leave_stale_record (rm : RoomManager)
    (u A B nameB colorB : String) (r : User)
    (hrec : mapGet u ((rm.roomState A).users) = some r)
    (hAB : A ≠ B) (hB : B ≠ "") :
    mapGet u ((((rm.joinRoom u B nameB colorB).2).roomState A).users) = some r
      ∧ mapGet u ((((rm.joinRoom u B nameB colorB).2).roomState B).users)
          = some (freshUser u nameB colorB)
      ∧ ((rm.joinRoom u B nameB colorB).2).getUserRoom u = some B
      ∧ mapGet u (((((rm.joinRoom u B nameB colorB).2).leaveRoom u).roomState B).users)
          = none
      ∧ mapGet u (((((rm.joinRoom u B nameB colorB).2).leaveRoom u).roomState A).users)
          = some r
      ∧ (((rm.joinRoom u B nameB colorB).2).leaveRoom u).getUserRoom u = none := by
  have h1 : mapGet u ((((rm.joinRoom u B nameB colorB).2).roomState A).users) = some r := by
    rw [joinRoom_roomState_ne rm u B nameB colorB A (Ne.symm hAB)]
    exact hrec
  have h2 : mapGet u ((((rm.joinRoom u B nameB colorB).2).roomState B).users)
      = some (freshUser u nameB colorB) := by
    rw [joinRoom_roomState_self, addUser_users]
    exact mapGet_set_self u _ _
  have h3 : ((rm.joinRoom u B nameB colorB).2).getUserRoom u = some B := by
    show mapGet u ((rm.joinRoom u B nameB colorB).2).userToRoom = some B
    rw [joinRoom_userToRoom]
    exact mapGet_set_self u B _
  -- reduce the subsequent leave using the mapping just established
  have hleave : (((rm.joinRoom u B nameB colorB).2).leaveRoom u)
      = (let rm1 := (rm.joinRoom u B nameB colorB).2
         let p := rm1.getRoom B
         let q := p.1.removeUser u
         let rm2 := p.2.setRoom B q.2
         { rm2 with userToRoom := mapDelete u rm2.userToRoom }) := by
    simp only [RoomManager.leaveRoom]
    rw [show mapGet u ((rm.joinRoom u B nameB colorB).2).userToRoom = some B from h3]
    simp [hB]
  refine ⟨h1, h2, h3, ?_, ?_, ?_⟩
  · rw [hleave]
    simp only [roomState_userToRoom_update]
    rw [setRoom_roomState_self]
    show mapGet u (mapDelete u (((rm.joinRoom u B nameB colorB).2).getRoom B).1.users)
      = none
    exact mapGet_delete_self u _
  · rw [hleave]
    simp only [roomState_userToRoom_update]
    rw [setRoom_roomState_ne _ _ _ _ (Ne.symm hAB), getRoom_roomState]
    exact h1
  · rw [hleave]
    show mapGet u (mapDelete u _) = none
    exact mapGet_delete_self u _

def c9rm : RoomManager := (RoomManager.init.joinRoom sU sA sU black).2
def c9user : User :=
  { id := sU, name := sU, color := black, cursorPosition := none, isActive := true }

/-- Witness for C9: user u joins room a, then joins room b and leaves; the
record in room a survives both. -/
theorem C9_join_then_leave_stale_record_witness :
    mapGet sU ((c9rm.roomState sA).users) = some c9user
      ∧ sA ≠ sB ∧ sB ≠ ""
      ∧ mapGet sU (((((c9rm.joinRoom sU sB sV black).2).leaveRoom sU).roomState sA).users)
          = some c9user
      ∧ (((c9rm.joinRoom sU sB sV black).2).leaveRoom sU).getUserRoom sU = none :=
  ⟨by decide, by decide, by decide,
    (C9_join_then_leave_stale_record c9rm sU sA sB sV black c9user
      (by decide) (by decide) (by decide)).2.2.2.2.1,
    (C9_join_then_leave_stale_record c9rm sU sA sB sV black c9user
      (by decide) (by decide) (by decide)).2.2.2.2.2⟩

/-! ### C8: room isolation

The log-relevant fields of a `DrawingState` (everything except the presence
table) form its core; log actions read and write only the core, while join
and leave touch only presence, so a room's core is determined by the log
actions routed to its key. -/

/-- The log-relevant fields of a room state. -/
structure LogCore where
  operations : List DrawingOperation
  undoStack : List DrawingOperation
  redoStack : List DrawingOperation
  sequenceCounter : Nat
deriving DecidableEq, Repr

/-- Project a room state to its log core. -/
def DrawingState.core (s : DrawingState) : LogCore :=
  { operations := s.operations, undoStack := s.undoStack,
    redoStack := s.redoStack, sequenceCounter := s.sequenceCounter }

theorem addUser_core (s : DrawingState) (u n c : String) :
    ((s.addUser u n c).2).core = s.core := rfl

theorem removeUser_core (s : DrawingState) (u : String) :
    ((s.removeUser u).2).core = s.core := rfl

theorem core_congr_lstep (s t : DrawingState) (h : s.core = t.core) (a : LAct) :
    (s.lstep a).core = (t.lstep a).core := by
  have hops : s.operations = t.operations := congrArg LogCore.operations h
  have hund : s.undoStack = t.undoStack := congrArg LogCore.undoStack h
  have hred : s.redoStack = t.redoStack := congrArg LogCore.redoStack h
  have hctr : s.sequenceCounter = t.sequenceCounter := congrArg LogCore.sequenceCounter h
  cases a with
  | add d g =>
      simp [DrawingState.lstep, DrawingState.addOperation, DrawingState.core,
        hops, hund, hctr]
  | undoA =>
      simp only [DrawingState.lstep, DrawingState.undo, hops]
      cases hl : t.operations.getLast? <;>
        simp [DrawingState.core, hops, hund, hred, hctr, hl]
  | redoA =>
      simp only [DrawingState.lstep, DrawingState.redo, hund]
      cases hl : t.undoStack.getLast? <;>
        simp [DrawingState.core, hops, hund, hred, hctr, hl]
  | removeA i =>
      simp only [DrawingState.lstep, DrawingState.removeOperation, hops]
      cases hs : spliceFirst (fun op => op.id == i) t.operations <;>
        simp [DrawingState.core, hops, hund, hred, hctr, hs]
  | clearA =>
      simp [DrawingState.lstep, DrawingState.clear, DrawingState.core]

theorem core_congr_runLog (l : List LAct) :
    ∀ s t : DrawingState, s.core = t.core → (s.runLog l).core = (t.runLog l).core := by
  induction l with
  | nil => intro s t h; exact h
  | cons a rest ih =>
      intro s t h
      exact ih (s.lstep a) (t.lstep a) (core_congr_lstep s t h a)

theorem runLog_append (s : DrawingState) (l1 l2 : List LAct) :
    s.runLog (l1 ++ l2) = (s.runLog l1).runLog l2 :=
  List.foldl_append _ _ _ _

theorem leaveRoom_roomState_core (rm : RoomManager) (u B : String) :
    ((rm.leaveRoom u).roomState B).core = (rm.roomState B).core := by
  simp only [RoomManager.leaveRoom]
  cases hm : mapGet u rm.userToRoom with
  | none => rfl
  | some k =>
      by_cases hk : k = ""
      · simp [hk]
      · simp only [if_neg hk]
        show ((((rm.getRoom k).2.setRoom k
            ((rm.getRoom k).1.removeUser u).2).roomState B).core)
          = (rm.roomState B).core
        by_cases hB : k = B
        · subst hB
          rw [setRoom_roomState_self]
          rw [show (((rm.getRoom k).1.removeUser u).2).core = ((rm.getRoom k).1).core
            from removeUser_core _ u]
          rw [getRoom_fst]
        · rw [setRoom_roomState_ne _ _ _ _ hB, getRoom_roomState]

theorem rstep_roomState_core (rm : RoomManager) (a : RAct) (B : String) :
    ((rm.rstep a).roomState B).core
      = ((rm.roomState B).runLog (projRoom B [a])).core := by
  cases a with
  | logAct k la =>
      by_cases hk : k = B
      · subst hk
        simp only [RoomManager.rstep, projRoom, List.filterMap, if_pos rfl]
        rw [setRoom_roomState_self, getRoom_fst]
        rfl
      · simp only [RoomManager.rstep]
        rw [setRoom_roomState_ne _ _ _ _ hk, getRoom_roomState]
        simp [projRoom, hk, DrawingState.runLog]
  | joinAct u k n c =>
      simp only [RoomManager.rstep]
      have hrl : (rm.roomState B).runLog (projRoom B [RAct.joinAct u k n c])
          = rm.roomState B := by
        simp [projRoom, DrawingState.runLog]
      rw [hrl]
      by_cases hk : k = B
      · subst hk
        rw [joinRoom_roomState_self]
        exact addUser_core _ u n c
      · rw [joinRoom_roomState_ne rm u k n c B hk]
  | leaveAct u =>
      simp only [RoomManager.rstep]
      have hrl : (rm.roomState B).runLog (projRoom B [RAct.leaveAct u])
          = rm.roomState B := by
        simp [projRoom, DrawingState.runLog]
      rw [hrl]
      exact leaveRoom_roomState_core rm u B

theorem projRoom_cons (B : String) (a : RAct) (tr : List RAct) :
    projRoom B (a :: tr) = projRoom B [a] ++ projRoom B tr := by
  cases a with
  | logAct k la =>
      by_cases hk : k = B <;> simp [projRoom, List.filterMap, hk]
  | joinAct u k n c => simp [projRoom, List.filterMap]
  | leaveAct u => simp [projRoom, List.filterMap]

theorem runTrace_roomState_core (B : String) (tr : List RAct) :
    ∀ (rm : RoomManager) (s : DrawingState), (rm.roomState B).core = s.core →
      ((rm.runTrace tr).roomState B).core = (s.runLog (projRoom B tr)).core := by
  induction tr with
  | nil => intro rm s h; exact h
  | cons a rest ih =>
      intro rm s h
      have hstep : ((rm.rstep a).roomState B).core
          = ((s.runLog (projRoom B [a]))).core :=
        (rstep_roomState_core rm a B).trans
          (core_congr_runLog (projRoom B [a]) _ _ h)
      have hrec := ih (rm.rstep a) (s.runLog (projRoom B [a])) hstep
      rw [show (rm.runTrace (a :: rest)) = ((rm.rstep a).runTrace rest) from rfl]
      rw [projRoom_cons, runLog_append]
      exact hrec

/-- C8: room isolation.  The operations visible in room B — via
`listActive()` or `snapshot()` — are exactly those produced by the log
actions routed to key B, for any interleaving of registry and log
operations on any keys; operations appended to a different room A never
appear.  Moreover `getRoom` returns the same log for the same key when
called again. -/
theorem C8_room_isolation (tr : List RAct) (B : String) :
    ((RoomManager.init.runTrace tr).roomState B).getOperations
        = (DrawingState.init.runLog (projRoom B tr)).getOperations
      ∧ ((RoomManager.init.runTrace tr).roomState B).getStateSnapshot.operations
        = (DrawingState.init.runLog (projRoom B tr)).getOperations
      ∧ ∀ (rm : RoomManager) (k : String),
          (((rm.getRoom k).2).getRoom k).1 = (rm.getRoom k).1 := by
  have hcore := runTrace_roomState_core B tr RoomManager.init DrawingState.init rfl
  have hops := congrArg LogCore.operations hcore
  refine ⟨hops, hops, ?_⟩
  intro rm k
  unfold RoomManager.getRoom
  cases h : mapGet k rm.rooms with
  | some room => simp [h]
  | none => simp [h, mapGet_set_self]

end Canvas
